import Mathlib

/-!
Verification development for the `git-multi-push` batch tool
(repository snukone/cgypt): a shallow embedding of the two near-identical
program variants `src/git-multi-push/main.go` and `src/unnamed/part_000`.

The embedding models:
  * the Command Runner `run` (dry-run preview vs. real execution),
  * the Repository Inspector probes `isGitRepo`, `getCurrentBranch`,
    `hasChanges`,
  * the commit-and-push Workflow `processRepo`,
  * the checkout Workflow `checkoutRepo` (both variants),
  * the clone-source composition `fullURL` and the target-directory
    derivation of the second variant,
  * the branch allow-list parsing of `main`,
  * the bounded-concurrency gate of `main` (semaphore channel `sem`).

External effects (stat results, output of `git rev-parse` / `git status`,
exit status of each command launched by the Runner) are supplied by an
environment record; the workflow functions return the terminal outcome
together with the full trace of observable events (audit-log lines written
through `logger`, stdout lines written through `fmt.Printf`, read-only git
probes, and real external command executions).
-/

/-- A single external command: program name plus argument list, as built by
`exec.Command(prog, args...)`. -/
structure Cmd where
  prog : String
  args : List String
deriving DecidableEq, Repr

/-- One observable event of a Workflow run.

* `audit`: a line written to the audit log `git-multi-push.log` via
  `logger.Printf`.
* `stdout`: a line written to the process's standard output via
  `fmt.Printf` (the `[Dry-Run]` previews).
* `probe`: a read-only git query launched directly with `cmd.Output()`
  (`git rev-parse`, `git status`), bypassing the Command Runner.
* `exec`: a real external process launched by the Command Runner `run`
  in non-dry-run mode. -/
inductive Ev where
  | audit (line : String)
  | stdout (line : String)
  | probe (c : Cmd)
  | exec (c : Cmd)
deriving DecidableEq, Repr

/-- Result of `os.Stat`: distinguishes non-existence from other failures
(e.g. a permission error), since `checkoutRepo` only tests `err == nil`. -/
inductive StatErr where
  | notExist
  | permission
  | other (code : Nat)
deriving DecidableEq, Repr

/-- The part of `os.FileInfo` the program looks at (`info.IsDir()`). -/
structure FileInfo where
  isDir : Bool
deriving DecidableEq, Repr

/-- Environment of one commit-and-push Workflow target: the external world's
answers to the program's probes and commands.

* `gitDirStat`: result of `os.Stat(filepath.Join(path, ".git"))`.
* `revParse`: raw output of `git rev-parse --abbrev-ref HEAD` (before
  `strings.TrimSpace`), or the error it returned.
* `statusOut`: output of `git status --porcelain`, or its error.
* `cmdResult`: exit result of a command really executed by the Runner. -/
structure RepoEnv where
  gitDirStat : Except StatErr FileInfo
  revParse : Except String String
  statusOut : Except String String
  cmdResult : Cmd → Except String Unit

/-- `strings.Join(args, " ")`. -/
def joinSpace : List String → String
  | [] => ""
  | [x] => x
  | x :: xs => x ++ " " ++ joinSpace xs

/-- The stdout preview line `fmt.Printf("[Dry-Run] %s %s\n", cmd.Path,
strings.Join(cmd.Args[1:], " "))`; `cmd.Path` is modelled by the program
name. -/
def previewLine (c : Cmd) : String :=
  "[Dry-Run] " ++ c.prog ++ " " ++ joinSpace c.args

/-- The Command Runner `run(cmd, dryRun)`: in dry-run mode it prints a
preview to stdout and reports success without executing anything; otherwise
it really executes the command and reports the external tool's exit
status. Returns the emitted events and the `error` result. -/
def run (cmdResult : Cmd → Except String Unit) (dryRun : Bool) (c : Cmd) :
    List Ev × Except String Unit :=
  if dryRun then
    ([Ev.stdout (previewLine c)], Except.ok ())
  else
    ([Ev.exec c], cmdResult c)

/-- `isGitRepo(path)`: `err == nil && info.IsDir()` on the stat of
`path/.git`. -/
def isGitRepo (env : RepoEnv) : Bool :=
  match env.gitDirStat with
  | Except.ok info => info.isDir
  | Except.error _ => false

/-- `hasChanges(repo)`: asks `git status --porcelain`; any error yields
`false`, otherwise true iff the output is non-empty (`len(out) > 0`). -/
def hasChanges (env : RepoEnv) : Bool :=
  match env.statusOut with
  | Except.error _ => false
  | Except.ok out => decide (0 < out.length)

/-- `strings.TrimSpace`: drop leading and trailing whitespace characters. -/
def goTrimSpace (s : String) : String :=
  String.mk (((s.toList.dropWhile Char.isWhitespace).reverse.dropWhile
    Char.isWhitespace).reverse)

/-- `getCurrentBranch(repo)`: output of `git rev-parse --abbrev-ref HEAD`
with surrounding whitespace trimmed, or the probe's error. -/
def getCurrentBranch (env : RepoEnv) : Except String String :=
  match env.revParse with
  | Except.error e => Except.error e
  | Except.ok out => Except.ok (goTrimSpace out)

/-- The probe command behind `getCurrentBranch`. -/
def revParseCmd : Cmd := ⟨"git", ["rev-parse", "--abbrev-ref", "HEAD"]⟩

/-- The probe command behind `hasChanges`. -/
def statusCmd : Cmd := ⟨"git", ["status", "--porcelain"]⟩

/-- The three pipeline commands of the commit-and-push Workflow, in the
order the source lists them: stage-all, commit-with-message, push. -/
def pipelineCmds (commitMessage : String) : List Cmd :=
  [⟨"git", ["add", "-A"]⟩, ⟨"git", ["commit", "-m", commitMessage]⟩, ⟨"git", ["push"]⟩]

/-- Terminal outcome of one Workflow (both modes). -/
inductive Outcome where
  | notARepo
  | branchCheckFailed
  | branchNotAllowed
  | noChanges
  | failed
  | succeeded
  | alreadyExists
deriving DecidableEq, Repr

/-- The `for _, c := range cmds` loop of `processRepo`: run each command
through the Runner; on the first failure log `[repo] Fehler: err` and
break. Returns the events of the loop and whether every step succeeded. -/
def runSteps (env : RepoEnv) (dryRun : Bool) (repo : String) :
    List Cmd → List Ev × Bool
  | [] => ([], true)
  | c :: rest =>
    let (evs, r) := run env.cmdResult dryRun c
    match r with
    | Except.ok _ =>
      let (evs2, ok2) := runSteps env dryRun repo rest
      (evs ++ evs2, ok2)
    | Except.error e =>
      (evs ++ [Ev.audit ("[" ++ repo ++ "] Fehler: " ++ e)], false)

/-- The commit-and-push Workflow `processRepo`: skip checks in source
order (not a repo, branch resolution, branch allow-list, pending changes),
then the three-step pipeline with abort on first failure. Returns the
terminal outcome and the event trace. -/
def processRepo (env : RepoEnv) (repo commitMessage : String)
    (allowedBranches : List String) (dryRun : Bool) : Outcome × List Ev :=
  if isGitRepo env = false then
    (Outcome.notARepo, [Ev.audit ("[" ++ repo ++ "] Kein Git-Repo, übersprungen")])
  else
    match getCurrentBranch env with
    | Except.error e =>
      (Outcome.branchCheckFailed,
        [Ev.probe revParseCmd,
         Ev.audit ("[" ++ repo ++ "] Fehler beim Branch-Check: " ++ e)])
    | Except.ok branch =>
      if 0 < allowedBranches.length ∧ allowedBranches.contains branch = false then
        (Outcome.branchNotAllowed,
          [Ev.probe revParseCmd,
           Ev.audit ("[" ++ repo ++ "] Übersprungen: Branch '" ++ branch ++ "' nicht erlaubt")])
      else if hasChanges env = false then
        (Outcome.noChanges,
          [Ev.probe revParseCmd, Ev.probe statusCmd,
           Ev.audit ("[" ++ repo ++ "] Keine Änderungen, übersprungen")])
      else
        let (evs, allOk) := runSteps env dryRun repo (pipelineCmds commitMessage)
        ((if allOk then Outcome.succeeded else Outcome.failed),
          [Ev.probe revParseCmd, Ev.probe statusCmd,
           Ev.audit ("[" ++ repo ++ "] Bearbeite Repo auf Branch '" ++ branch ++ "'")] ++ evs)

/-- Commands really executed (dispatched as external processes by the
Runner) in a trace. -/
def execsOf (t : List Ev) : List Cmd :=
  t.filterMap fun e =>
    match e with
    | Ev.exec c => some c
    | _ => none

/-- Audit-log lines of a trace. -/
def auditOf (t : List Ev) : List String :=
  t.filterMap fun e =>
    match e with
    | Ev.audit l => some l
    | _ => none

/-- Stdout lines of a trace (the dry-run previews). -/
def stdoutOf (t : List Ev) : List String :=
  t.filterMap fun e =>
    match e with
    | Ev.stdout l => some l
    | _ => none

/-- Environment of one checkout Workflow target.

* `dirStat`: result of `os.Stat(targetDir)`.
* `cmdResult`: exit result of the clone command when really executed. -/
structure CheckoutEnv where
  dirStat : Except StatErr FileInfo
  cmdResult : Cmd → Except String Unit

/-- `strings.TrimRight(s, "/")`: drop every trailing `/`. -/
def trimRightSlash (s : String) : String :=
  String.mk (s.toList.reverse.dropWhile (fun c => c == '/')).reverse

/-- The clone source composed by `checkoutRepo` of `main.go`:
`strings.TrimRight(providerURL, "/") + "/" + repoName + ".git"`. -/
def fullURL (providerURL repoName : String) : String :=
  trimRightSlash providerURL ++ "/" ++ repoName ++ ".git"

/-- The argument list of the clone command: `clone`, then `-b branch` when
a branch is supplied, then the source and the target directory. -/
def cloneArgs (source branch targetDir : String) : List String :=
  ["clone"] ++ (if branch = "" then [] else ["-b", branch]) ++ [source, targetDir]

/-- The checkout Workflow of `main.go` (`checkoutRepo`): skip when the
target directory's stat succeeds, otherwise clone
`fullURL providerURL repoName` into `targetDir` through the Runner. -/
def checkoutRepo (env : CheckoutEnv) (providerURL repoName branch targetDir : String)
    (dryRun : Bool) : Outcome × List Ev :=
  match env.dirStat with
  | Except.ok _ =>
    (Outcome.alreadyExists,
      [Ev.audit ("[" ++ targetDir ++ "] Verzeichnis existiert, übersprungen")])
  | Except.error _ =>
    let c : Cmd := ⟨"git", cloneArgs (fullURL providerURL repoName) branch targetDir⟩
    let (evs, r) := run env.cmdResult dryRun c
    match r with
    | Except.error e =>
      (Outcome.failed, evs ++ [Ev.audit ("[" ++ targetDir ++ "] Checkout Fehler: " ++ e)])
    | Except.ok _ =>
      (Outcome.succeeded, evs ++ [Ev.audit ("[" ++ targetDir ++ "] Erfolgreich ausgecheckt")])

/-- The checkout Workflow of the `part_000` variant (`checkoutRepo(url,
branch, targetDir, ...)`): same skip test, but the line from the target
list is used verbatim as the clone source. -/
def checkoutRepoV2 (env : CheckoutEnv) (url branch targetDir : String)
    (dryRun : Bool) : Outcome × List Ev :=
  match env.dirStat with
  | Except.ok _ =>
    (Outcome.alreadyExists,
      [Ev.audit ("[" ++ targetDir ++ "] Verzeichnis existiert, übersprungen")])
  | Except.error _ =>
    let c : Cmd := ⟨"git", cloneArgs url branch targetDir⟩
    let (evs, r) := run env.cmdResult dryRun c
    match r with
    | Except.error e =>
      (Outcome.failed, evs ++ [Ev.audit ("[" ++ targetDir ++ "] Checkout Fehler: " ++ e)])
    | Except.ok _ =>
      (Outcome.succeeded, evs ++ [Ev.audit ("[" ++ targetDir ++ "] Erfolgreich ausgecheckt")])

/-- `path.filepath.Base` on a Unix path: empty gives `"."`, trailing
separators are stripped, then everything up to the last separator is
dropped; an all-separator path gives `"/"`. -/
def goFilepathBase (path : String) : String :=
  if path = "" then "."
  else
    let p := (path.toList.reverse.dropWhile (fun c => c == '/')).reverse
    let q := (p.reverse.takeWhile (fun c => c ≠ '/')).reverse
    if q = [] then "/" else String.mk q

/-- `strings.TrimSuffix(s, sfx)`: drop `sfx` when `s` ends with it. -/
def goTrimSuffix (s sfx : String) : String :=
  if sfx.toList.isSuffixOf s.toList then
    String.mk (s.toList.take (s.toList.length - sfx.toList.length))
  else s

/-- The local directory the `part_000` variant derives for a checkout
line: `strings.TrimSuffix(filepath.Base(url), ".git")`. -/
def v2TargetDir (url : String) : String :=
  goTrimSuffix (goFilepathBase url) ".git"

/-- `strings.Split(s, ",")` over the character list: each comma ends the
entry accumulated so far (in reverse); no entry is trimmed. -/
def splitCommaAux : List Char → List Char → List (List Char)
  | [], acc => [acc.reverse]
  | c :: cs, acc =>
    if c == ',' then acc.reverse :: splitCommaAux cs []
    else splitCommaAux cs (c :: acc)

/-- `strings.Split(s, ",")`. -/
def goSplitComma (s : String) : List String :=
  (splitCommaAux s.toList []).map String.mk

/-- Branch allow-list parsing in `main`: the empty flag gives the empty
list, otherwise `strings.Split(*branches, ",")` — split on commas, no
whitespace trimming of the entries. -/
def parseAllowedBranches (branches : String) : List String :=
  if branches = "" then [] else goSplitComma branches

/-- Modelled from the spec (the effect of the external clone tool, which is
not part of this repository's code): a real, non-dry-run successful clone
creates the target directory; every other outcome leaves the directory's
stat result as it was. Used to state checkout idempotence across two runs. -/
def dirStatAfter (env : CheckoutEnv) (dryRun : Bool) (out : Outcome) :
    Except StatErr FileInfo :=
  match env.dirStat with
  | Except.ok i => Except.ok i
  | Except.error e =>
    if out = Outcome.succeeded ∧ dryRun = false then Except.ok ⟨true⟩
    else Except.error e

/-- State of the bounded-concurrency gate of `main`: how many targets are
still to dispatch, how many semaphore slots are held (`sem <- struct{}{}`
sent and not yet received back), and how many Workflows have been started
and not yet completed. -/
structure GateState where
  pending : Nat
  held : Nat
  running : Nat
deriving DecidableEq, Repr

/-- One step of the dispatch loop and the worker goroutines of `main`,
with semaphore capacity `cap` (`sem := make(chan struct{}, *parallel)`).

* `dispatch`: the main loop sends on `sem` — possible only when fewer than
  `cap` slots are held — and spawns the Workflow goroutine for the next
  target, so a slot is acquired before the Workflow starts.
* `finish`: a running Workflow completes and its goroutine's deferred
  receive `<-sem` releases the slot it holds, so a slot is released only
  when its Workflow completes. -/
inductive GateStep (cap : Nat) : GateState → GateState → Prop
  | dispatch (s : GateState) (hp : 0 < s.pending) (hh : s.held < cap) :
      GateStep cap s ⟨s.pending - 1, s.held + 1, s.running + 1⟩
  | finish (s : GateState) (hr : 0 < s.running) :
      GateStep cap s ⟨s.pending, s.held - 1, s.running - 1⟩

/-- The gate's start state for a target list of length `n`: no slot held,
no Workflow running. -/
def gateInit (n : Nat) : GateState := ⟨n, 0, 0⟩

/-- A commit-and-push target on branch `main` with pending changes where
every pipeline command succeeds. -/
def envAllOk : RepoEnv :=
  ⟨Except.ok ⟨true⟩, Except.ok "main\n", Except.ok "M a.txt\n", fun _ => Except.ok ()⟩

/-- A commit-and-push target on branch `develop` with pending changes. -/
def envDevelop : RepoEnv :=
  ⟨Except.ok ⟨true⟩, Except.ok "develop\n", Except.ok "M a.txt\n", fun _ => Except.ok ()⟩

/-- A commit-and-push target whose commit step fails (`git commit -m "m"`
exits non-zero) while every other command succeeds. -/
def envFailCommit : RepoEnv :=
  ⟨Except.ok ⟨true⟩, Except.ok "main\n", Except.ok "M a.txt\n",
    fun c => if c = ⟨"git", ["commit", "-m", "m"]⟩ then Except.error "exit status 1"
      else Except.ok ()⟩

/-- A commit-and-push target whose `git status --porcelain` probe errors. -/
def envStatusErr : RepoEnv :=
  ⟨Except.ok ⟨true⟩, Except.ok "main\n", Except.error "fatal: not a git repository",
    fun _ => Except.ok ()⟩

/-- A checkout target whose directory already exists (as a directory). -/
def coExistsDir : CheckoutEnv := ⟨Except.ok ⟨true⟩, fun _ => Except.ok ()⟩

/-- A checkout target whose path exists but is a regular file. -/
def coExistsFile : CheckoutEnv := ⟨Except.ok ⟨false⟩, fun _ => Except.ok ()⟩

/-- A checkout target whose stat fails with a permission error. -/
def coPermErr : CheckoutEnv := ⟨Except.error StatErr.permission, fun _ => Except.ok ()⟩

/-- A checkout target whose directory does not exist; the clone succeeds. -/
def coMissing : CheckoutEnv := ⟨Except.error StatErr.notExist, fun _ => Except.ok ()⟩

/-!  Helper lemmas. -/

/-- Unfolding of `processRepo` past the first two checks, given that the
target is a repository and its branch resolves to `b`. -/
theorem processRepo_after_branch (env : RepoEnv) (repo msg : String)
    (allowed : List String) (dry : Bool) (b : String)
    (hrepo : isGitRepo env = true) (hbr : getCurrentBranch env = Except.ok b) :
    processRepo env repo msg allowed dry =
      if 0 < allowed.length ∧ allowed.contains b = false then
        (Outcome.branchNotAllowed,
          [Ev.probe revParseCmd,
           Ev.audit ("[" ++ repo ++ "] Übersprungen: Branch '" ++ b ++ "' nicht erlaubt")])
      else if hasChanges env = false then
        (Outcome.noChanges,
          [Ev.probe revParseCmd, Ev.probe statusCmd,
           Ev.audit ("[" ++ repo ++ "] Keine Änderungen, übersprungen")])
      else
        ((if (runSteps env dry repo (pipelineCmds msg)).snd then Outcome.succeeded
          else Outcome.failed),
          [Ev.probe revParseCmd, Ev.probe statusCmd,
           Ev.audit ("[" ++ repo ++ "] Bearbeite Repo auf Branch '" ++ b ++ "'")] ++
            (runSteps env dry repo (pipelineCmds msg)).fst) := by
  simp [processRepo, hrepo, hbr]

/-- With an empty allow-list, no run of `processRepo` ends in
`branchNotAllowed`, whatever the environment. -/
theorem processRepo_empty_allowed (env2 : RepoEnv) (repo2 msg2 : String) (dry2 : Bool) :
    (processRepo env2 repo2 msg2 [] dry2).fst ≠ Outcome.branchNotAllowed := by
  unfold processRepo
  split
  · simp
  · split
    · simp
    · simp only [List.length_nil, Nat.lt_irrefl, false_and, if_false]
      split
      · simp
      · split <;> simp

/-- Audit lines of the pipeline loop: a fully successful pass writes none,
an aborted pass writes exactly the one `Fehler` line. -/
theorem runSteps_audit (env : RepoEnv) (dry : Bool) (repo : String)
    (cs : List Cmd) :
    ((runSteps env dry repo cs).snd = true →
      auditOf (runSteps env dry repo cs).fst = []) ∧
    ((runSteps env dry repo cs).snd = false →
      (auditOf (runSteps env dry repo cs).fst).length = 1) := by
  induction cs with
  | nil => simp [runSteps, auditOf]
  | cons c rest ih =>
    by_cases hd : dry = true
    · subst hd
      simpa [runSteps, run, auditOf] using ih
    · have hd2 : dry = false := by simpa using hd
      subst hd2
      rcases hc : env.cmdResult c with e | u
      · simp [runSteps, run, hc, auditOf]
      · simpa [runSteps, run, hc, auditOf] using ih

/-- In dry-run mode the pipeline loop previews every command in order and
reports success. -/
theorem runSteps_dry (env : RepoEnv) (repo : String) (cs : List Cmd) :
    runSteps env true repo cs =
      (cs.map (fun c => Ev.stdout (previewLine c)), true) := by
  induction cs with
  | nil => simp [runSteps]
  | cons c rest ih => simp [runSteps, run, ih]

/-- The head surviving `dropWhile` fails the predicate. -/
theorem head_dropWhile_not (p : Char → Bool) :
    ∀ (l : List Char) (c : Char), (l.dropWhile p).head? = some c → p c = false := by
  intro l
  induction l with
  | nil => intro c h; simp [List.dropWhile] at h
  | cons x xs ih =>
    intro c h
    rw [List.dropWhile_cons] at h
    by_cases hx : p x
    · rw [if_pos hx] at h
      exact ih c h
    · rw [if_neg hx] at h
      simp only [List.head?_cons, Option.some.injEq] at h
      subst h
      simpa using hx

/-!  The claims. -/

/-- Claim C3: in commit-and-push mode a target (that is a repository whose
branch resolves) is skipped with `BranchNotAllowed` iff the allow-list is
non-empty and does not contain the current branch; with an empty
allow-list no target is ever skipped for branch reasons. -/
theorem c3_branch_filter_iff (env : RepoEnv) (repo msg : String)
    (allowed : List String) (dry : Bool) (b : String)
    (hrepo : isGitRepo env = true)
    (hbr : getCurrentBranch env = Except.ok b) :
    ((processRepo env repo msg allowed dry).fst = Outcome.branchNotAllowed ↔
      (allowed ≠ [] ∧ b ∉ allowed)) ∧
    ∀ (env2 : RepoEnv) (repo2 msg2 : String) (dry2 : Bool),
      (processRepo env2 repo2 msg2 [] dry2).fst ≠ Outcome.branchNotAllowed := by
  refine ⟨?_, processRepo_empty_allowed⟩
  rw [processRepo_after_branch env repo msg allowed dry b hrepo hbr]
  have hiff : (0 < allowed.length ∧ allowed.contains b = false) ↔
      (allowed ≠ [] ∧ b ∉ allowed) := by
    simp [List.length_pos]
  split_ifs with h1 h2 h3
  · exact iff_of_true rfl (hiff.mp h1)
  · exact iff_of_false (by simp) (fun hr => h1 (hiff.mpr hr))
  · exact iff_of_false (by simp) (fun hr => h1 (hiff.mpr hr))
  · exact iff_of_false (by simp) (fun hr => h1 (hiff.mpr hr))

/-- Witness for C3: a repository on branch `develop` with allow-list
`["main"]` is skipped as `BranchNotAllowed`. -/
theorem c3_branch_filter_iff_witness :
    (processRepo envDevelop "r" "m" ["main"] false).fst = Outcome.branchNotAllowed :=
  ((c3_branch_filter_iff envDevelop "r" "m" ["main"] false "develop"
    (by decide) (by rfl)).1).mpr (by decide)

/-- Claim C9: the allow-list configuration is split on commas with no
whitespace trimming and entries are matched by exact string equality:
`"main, develop"` parses to `["main", " develop"]`, the branch name
`develop` is not a member of that list, and a repository on branch
`develop` is skipped as `BranchNotAllowed` under that configuration. -/
theorem c9_split_no_trim :
    parseAllowedBranches "main, develop" = ["main", " develop"] ∧
    " develop" ≠ "develop" ∧
    "develop" ∉ parseAllowedBranches "main, develop" ∧
    (processRepo envDevelop "r" "m" (parseAllowedBranches "main, develop") false).fst
      = Outcome.branchNotAllowed :=
  ⟨by decide, by decide, by decide, by decide⟩

/-- Claim C7: `hasChanges` is true iff the short-status probe succeeds
with non-empty output and is false on any probe error; a target whose
status probe errors is skipped as `NoChanges`, with no command executed or
previewed. -/
theorem c7_has_changes (env : RepoEnv) (repo msg : String)
    (allowed : List String) (dry : Bool) (b : String) :
    (hasChanges env = true ↔
      ∃ out, env.statusOut = Except.ok out ∧ 0 < out.length) ∧
    (∀ e, env.statusOut = Except.error e → hasChanges env = false) ∧
    (∀ e, env.statusOut = Except.error e → isGitRepo env = true →
      getCurrentBranch env = Except.ok b →
      (allowed = [] ∨ allowed.contains b = true) →
      (processRepo env repo msg allowed dry).fst = Outcome.noChanges ∧
      execsOf (processRepo env repo msg allowed dry).snd = [] ∧
      stdoutOf (processRepo env repo msg allowed dry).snd = []) := by
  refine ⟨?_, ?_, ?_⟩
  · unfold hasChanges
    rcases hso : env.statusOut with e | out
    · simp
    · simp
  · intro e hso
    unfold hasChanges
    rw [hso]
  · intro e hso hrepo hbr hallow
    have hch : hasChanges env = false := by unfold hasChanges; rw [hso]
    have hcond : ¬(0 < allowed.length ∧ allowed.contains b = false) := by
      rintro ⟨hlen, hcf⟩
      rcases hallow with h | h
      · subst h; simp at hlen
      · rw [h] at hcf; cases hcf
    rw [processRepo_after_branch env repo msg allowed dry b hrepo hbr,
      if_neg hcond, if_pos hch]
    simp [execsOf, stdoutOf]

/-- Witness for C7: a target whose status probe errors reports no changes
and is skipped as `NoChanges`. -/
theorem c7_has_changes_witness :
    hasChanges envStatusErr = false ∧
    (processRepo envStatusErr "r" "m" [] false).fst = Outcome.noChanges :=
  ⟨(c7_has_changes envStatusErr "r" "m" [] false "main").2.1
      "fatal: not a git repository" (by rfl),
   ((c7_has_changes envStatusErr "r" "m" [] false "main").2.2
      "fatal: not a git repository" (by rfl) (by decide) (by rfl) (Or.inl rfl)).1⟩

/-- Claim C10: the checkout skip test is a bare stat-success check: any
stat success — a regular file included — yields `AlreadyExists` with no
clone issued, while any stat error — a permission error as much as
non-existence — leads to the clone being attempted. -/
theorem c10_stat_check (env : CheckoutEnv) (purl name br dir : String) :
    (∀ info, env.dirStat = Except.ok info →
      (checkoutRepo env purl name br dir false).fst = Outcome.alreadyExists ∧
      (checkoutRepo env purl name br dir true).fst = Outcome.alreadyExists ∧
      execsOf (checkoutRepo env purl name br dir false).snd = []) ∧
    (∀ e, env.dirStat = Except.error e →
      (checkoutRepo env purl name br dir false).fst ≠ Outcome.alreadyExists ∧
      execsOf (checkoutRepo env purl name br dir false).snd =
        [⟨"git", cloneArgs (fullURL purl name) br dir⟩] ∧
      stdoutOf (checkoutRepo env purl name br dir true).snd =
        [previewLine ⟨"git", cloneArgs (fullURL purl name) br dir⟩]) := by
  constructor
  · intro info h
    simp [checkoutRepo, h, execsOf]
  · intro e h
    rcases hr : env.cmdResult ⟨"git", cloneArgs (fullURL purl name) br dir⟩ with e2 | u
    · simp [checkoutRepo, h, run, hr, execsOf, stdoutOf]
    · simp [checkoutRepo, h, run, hr, execsOf, stdoutOf]

/-- Witness for C10: a path that exists as a regular file is still skipped
as `AlreadyExists`; a permission-erroring stat still leads to the clone. -/
theorem c10_stat_check_witness :
    (checkoutRepo coExistsFile "u" "n" "" "d" false).fst = Outcome.alreadyExists ∧
    execsOf (checkoutRepo coPermErr "u" "n" "" "d" false).snd =
      [⟨"git", cloneArgs (fullURL "u" "n") "" "d"⟩] :=
  ⟨((c10_stat_check coExistsFile "u" "n" "" "d").1 ⟨false⟩ (by rfl)).1,
   ((c10_stat_check coPermErr "u" "n" "" "d").2 StatErr.permission (by rfl)).2.1⟩

/-- Claim C5: checkout is idempotent — a target whose directory stat
succeeds terminates as `AlreadyExists`, its trace is the single audit line
with no command issued, and after a run that succeeded or skipped, a
second run of the same target is `AlreadyExists`. -/
theorem c5_checkout_idempotent (env : CheckoutEnv) (purl name br dir : String)
    (dry : Bool) (info : FileInfo) (h : env.dirStat = Except.ok info) :
    (checkoutRepo env purl name br dir dry).fst = Outcome.alreadyExists ∧
    (checkoutRepo env purl name br dir dry).snd =
      [Ev.audit ("[" ++ dir ++ "] Verzeichnis existiert, übersprungen")] ∧
    execsOf (checkoutRepo env purl name br dir dry).snd = [] ∧
    ∀ (env1 : CheckoutEnv) (p1 n1 b1 d1 : String),
      ((checkoutRepo env1 p1 n1 b1 d1 false).fst = Outcome.succeeded ∨
       (checkoutRepo env1 p1 n1 b1 d1 false).fst = Outcome.alreadyExists) →
      (checkoutRepo
        ⟨dirStatAfter env1 false (checkoutRepo env1 p1 n1 b1 d1 false).fst,
          env1.cmdResult⟩ p1 n1 b1 d1 false).fst = Outcome.alreadyExists := by
  refine ⟨by simp [checkoutRepo, h], by simp [checkoutRepo, h],
    by simp [checkoutRepo, h, execsOf], ?_⟩
  intro env1 p1 n1 b1 d1 h1
  have hski : ∀ (env2 : CheckoutEnv) (i : FileInfo), env2.dirStat = Except.ok i →
      (checkoutRepo env2 p1 n1 b1 d1 false).fst = Outcome.alreadyExists := by
    intro env2 i h2
    simp [checkoutRepo, h2]
  rcases hd : env1.dirStat with e | i1
  · rcases hr : env1.cmdResult ⟨"git", cloneArgs (fullURL p1 n1) b1 d1⟩ with e2 | u
    · exfalso
      rcases h1 with h1 | h1 <;> simp [checkoutRepo, hd, run, hr] at h1
    · have hout : (checkoutRepo env1 p1 n1 b1 d1 false).fst = Outcome.succeeded := by
        simp [checkoutRepo, hd, run, hr]
      have hafter : dirStatAfter env1 false (checkoutRepo env1 p1 n1 b1 d1 false).fst
          = Except.ok ⟨true⟩ := by
        simp [dirStatAfter, hd, hout]
      exact hski _ _ hafter
  · have hafter : dirStatAfter env1 false (checkoutRepo env1 p1 n1 b1 d1 false).fst
        = Except.ok i1 := by
      simp [dirStatAfter, hd]
    exact hski _ _ hafter

/-- Claim C1: a commit-and-push target that reaches `Running` executes
exactly stage-all, commit-with-message, push, in that order, through the
Runner; the first failing step stops the pipeline and the remaining steps
are skipped — the executed-command trace is exactly the prefix up to and
including the first failing step, so no un-stage or revert step ever
follows; in dry-run mode all three steps are previewed in order. -/
theorem c1_pipeline_order (env : RepoEnv) (repo msg : String)
    (allowed : List String) (b : String)
    (hrepo : isGitRepo env = true) (hbr : getCurrentBranch env = Except.ok b)
    (hallow : allowed = [] ∨ allowed.contains b = true)
    (hch : hasChanges env = true) :
    (∀ e, env.cmdResult ⟨"git", ["add", "-A"]⟩ = Except.error e →
      execsOf (processRepo env repo msg allowed false).snd =
        [⟨"git", ["add", "-A"]⟩]) ∧
    (∀ e, env.cmdResult ⟨"git", ["add", "-A"]⟩ = Except.ok () →
      env.cmdResult ⟨"git", ["commit", "-m", msg]⟩ = Except.error e →
      execsOf (processRepo env repo msg allowed false).snd =
        [⟨"git", ["add", "-A"]⟩, ⟨"git", ["commit", "-m", msg]⟩]) ∧
    (env.cmdResult ⟨"git", ["add", "-A"]⟩ = Except.ok () →
      env.cmdResult ⟨"git", ["commit", "-m", msg]⟩ = Except.ok () →
      execsOf (processRepo env repo msg allowed false).snd = pipelineCmds msg) ∧
    stdoutOf (processRepo env repo msg allowed true).snd =
      (pipelineCmds msg).map previewLine := by
  have hcond : ¬(0 < allowed.length ∧ allowed.contains b = false) := by
    rintro ⟨hlen, hcf⟩
    rcases hallow with h | h
    · subst h; simp at hlen
    · rw [h] at hcf; cases hcf
  have hch2 : ¬(hasChanges env = false) := by simp [hch]
  have hred : ∀ dry : Bool, (processRepo env repo msg allowed dry).snd =
      [Ev.probe revParseCmd, Ev.probe statusCmd,
       Ev.audit ("[" ++ repo ++ "] Bearbeite Repo auf Branch '" ++ b ++ "'")] ++
        (runSteps env dry repo (pipelineCmds msg)).fst := by
    intro dry
    rw [processRepo_after_branch env repo msg allowed dry b hrepo hbr,
      if_neg hcond, if_neg hch2]
  refine ⟨?_, ?_, ?_, ?_⟩
  · intro e h0
    rw [hred false]
    simp [execsOf, runSteps, run, pipelineCmds, h0]
  · intro e h0 h1
    rw [hred false]
    simp [execsOf, runSteps, run, pipelineCmds, h0, h1]
  · intro h0 h1
    rw [hred false]
    rcases h2 : env.cmdResult ⟨"git", ["push"]⟩ with e2 | u2 <;>
      simp [execsOf, runSteps, run, pipelineCmds, h0, h1, h2]
  · rw [hred true]
    simp [stdoutOf, runSteps, run, pipelineCmds]

/-- Witness for C1: with a failing commit step, exactly stage-all then
commit run and the push is skipped. -/
theorem c1_pipeline_order_witness :
    execsOf (processRepo envFailCommit "r" "m" [] false).snd =
      [⟨"git", ["add", "-A"]⟩, ⟨"git", ["commit", "-m", "m"]⟩] :=
  (c1_pipeline_order envFailCommit "r" "m" [] "main" (by decide) (by rfl)
    (Or.inl rfl) (by decide)).2.1 "exit status 1" (by rfl) (by rfl)

/-- Witness for C5: an existing target directory is skipped as
`AlreadyExists`, and a second run after a successful clone is skipped. -/
theorem c5_checkout_idempotent_witness :
    (checkoutRepo coExistsDir "u" "n" "" "d" false).fst = Outcome.alreadyExists ∧
    (checkoutRepo
      ⟨dirStatAfter coMissing false (checkoutRepo coMissing "u" "n" "" "d" false).fst,
        coMissing.cmdResult⟩ "u" "n" "" "d" false).fst = Outcome.alreadyExists :=
  ⟨(c5_checkout_idempotent coExistsDir "u" "n" "" "d" false ⟨true⟩ (by rfl)).1,
   (c5_checkout_idempotent coExistsDir "u" "n" "" "d" false ⟨true⟩ (by rfl)).2.2.2
     coMissing "u" "n" "" "d" (Or.inl (by decide))⟩

/-- Counterexample for C2 as stated: a target whose three steps all
succeed ends `Succeeded`, yet its audit trace is exactly the single
`Bearbeite` line emitted on entering `Running` — no audit line recording
the `Succeeded` outcome is ever written. -/
theorem c2_no_success_audit_cex :
    (processRepo envAllOk "r" "m" [] false).fst = Outcome.succeeded ∧
    auditOf (processRepo envAllOk "r" "m" [] false).snd =
      ["[r] Bearbeite Repo auf Branch 'main'"] :=
  ⟨by decide, by decide⟩

/-- Claim C2 (amended): each skip transition and the entry into `Running`
emit exactly one audit line and a failing step one more, but the
`Succeeded` transition emits none — a run that does not fail emits exactly
one audit line in total, a failed run exactly two, and a succeeded
target's only audit line is the `Bearbeite` line. -/
theorem c2_audit_lines (env : RepoEnv) (repo msg : String)
    (allowed : List String) (dry : Bool) :
    ((processRepo env repo msg allowed dry).fst ≠ Outcome.failed →
      (auditOf (processRepo env repo msg allowed dry).snd).length = 1) ∧
    ((processRepo env repo msg allowed dry).fst = Outcome.failed →
      (auditOf (processRepo env repo msg allowed dry).snd).length = 2) ∧
    ((processRepo env repo msg allowed dry).fst = Outcome.succeeded →
      ∃ b, auditOf (processRepo env repo msg allowed dry).snd =
        ["[" ++ repo ++ "] Bearbeite Repo auf Branch '" ++ b ++ "'"]) := by
  by_cases hg : isGitRepo env = false
  · simp [processRepo, hg, auditOf]
  · have hrepo : isGitRepo env = true := by simpa using hg
    rcases hbr : getCurrentBranch env with e | bb
    · simp [processRepo, hg, hbr, auditOf]
    · rw [processRepo_after_branch env repo msg allowed dry bb hrepo hbr]
      have hsplit : auditOf
          ([Ev.probe revParseCmd, Ev.probe statusCmd,
            Ev.audit ("[" ++ repo ++ "] Bearbeite Repo auf Branch '" ++ bb ++ "'")] ++
            (runSteps env dry repo (pipelineCmds msg)).fst) =
          ("[" ++ repo ++ "] Bearbeite Repo auf Branch '" ++ bb ++ "'") ::
            auditOf (runSteps env dry repo (pipelineCmds msg)).fst := by
        simp [auditOf]
      split_ifs with h1 h2 hsnd
      · simp [auditOf]
      · simp [auditOf]
      · have hnil := (runSteps_audit env dry repo (pipelineCmds msg)).1 hsnd
        simp only [auditOf] at hnil
        refine ⟨fun _ => ?_, fun hf => absurd hf (by decide), fun _ => ⟨bb, ?_⟩⟩
        · simp [auditOf, hnil]
        · simp [auditOf, hnil]
      · have hsndf : (runSteps env dry repo (pipelineCmds msg)).snd = false := by
          simpa using hsnd
        have hlen := (runSteps_audit env dry repo (pipelineCmds msg)).2 hsndf
        simp only [auditOf] at hlen
        refine ⟨fun hne => absurd rfl hne, fun _ => ?_, fun hs => absurd hs (by decide)⟩
        simp [auditOf, hlen]

/-- Witness for C2 (amended): a target with a failing commit step ends
`Failed` with exactly two audit lines. -/
theorem c2_audit_lines_witness :
    (processRepo envFailCommit "r" "m" [] false).fst = Outcome.failed ∧
    (auditOf (processRepo envFailCommit "r" "m" [] false).snd).length = 2 :=
  ⟨by decide, (c2_audit_lines envFailCommit "r" "m" [] false).2.1 (by decide)⟩

/-- Counterexample for C4 as stated: in a dry run the previews appear only
on standard output; the audit log of a fully-previewed target holds no
would-execute line — its only audit line is the `Bearbeite` line, and no
preview line is among the audit lines. -/
theorem c4_previews_not_in_audit_cex :
    stdoutOf (processRepo envAllOk "r" "m" [] true).snd =
      ["[Dry-Run] git add -A", "[Dry-Run] git commit -m m", "[Dry-Run] git push"] ∧
    auditOf (processRepo envAllOk "r" "m" [] true).snd =
      ["[r] Bearbeite Repo auf Branch 'main'"] ∧
    ∀ l ∈ stdoutOf (processRepo envAllOk "r" "m" [] true).snd,
      l ∉ auditOf (processRepo envAllOk "r" "m" [] true).snd :=
  ⟨by decide, by decide, by decide⟩

/-- Claim C4 (amended): with dry-run enabled the Runner executes no
external command for any target — every command reaching it is answered
with a `[Dry-Run]` preview printed to standard output (not recorded in the
audit log) and success — and a target that reaches `Running` still
produces the full sequence of three preview lines in pipeline order and
ends `Succeeded`. -/
theorem c4_dry_run (env : RepoEnv) (repo msg : String)
    (allowed : List String) (b : String) :
    execsOf (processRepo env repo msg allowed true).snd = [] ∧
    (isGitRepo env = true → getCurrentBranch env = Except.ok b →
      (allowed = [] ∨ allowed.contains b = true) → hasChanges env = true →
      stdoutOf (processRepo env repo msg allowed true).snd =
        (pipelineCmds msg).map previewLine ∧
      (processRepo env repo msg allowed true).fst = Outcome.succeeded) := by
  constructor
  · by_cases hg : isGitRepo env = false
    · simp [processRepo, hg, execsOf]
    · have hrepo : isGitRepo env = true := by simpa using hg
      rcases hbr : getCurrentBranch env with e | bb
      · simp [processRepo, hg, hbr, execsOf]
      · rw [processRepo_after_branch env repo msg allowed true bb hrepo hbr]
        split_ifs with h1 h2 h3 <;>
          simp [execsOf, runSteps_dry, pipelineCmds]
  · intro hrepo hbr hallow hch
    have hcond : ¬(0 < allowed.length ∧ allowed.contains b = false) := by
      rintro ⟨hlen, hcf⟩
      rcases hallow with h | h
      · subst h; simp at hlen
      · rw [h] at hcf; cases hcf
    have hch2 : ¬(hasChanges env = false) := by simp [hch]
    rw [processRepo_after_branch env repo msg allowed true b hrepo hbr,
      if_neg hcond, if_neg hch2]
    simp [runSteps_dry, stdoutOf, pipelineCmds]

/-- Witness for C4 (amended): the all-successful dry-run target executes
nothing and previews all three commands. -/
theorem c4_dry_run_witness :
    execsOf (processRepo envAllOk "r" "m" [] true).snd = [] ∧
    stdoutOf (processRepo envAllOk "r" "m" [] true).snd =
      (pipelineCmds "m").map previewLine :=
  ⟨(c4_dry_run envAllOk "r" "m" [] "main").1,
   ((c4_dry_run envAllOk "r" "m" [] "main").2 (by decide) (by rfl)
     (Or.inl rfl) (by decide)).1⟩

/-- Invariant of the concurrency gate: in every reachable state the
running Workflows never exceed the held slots, which never exceed the
capacity. -/
theorem gateInv (cap n : Nat) (s : GateState)
    (h : Relation.ReflTransGen (GateStep cap) (gateInit n) s) :
    s.running ≤ s.held ∧ s.held ≤ cap := by
  induction h with
  | refl => simp [gateInit]
  | tail hsteps hstep ih =>
    cases hstep with
    | dispatch hp hh => exact ⟨Nat.succ_le_succ ih.1, hh⟩
    | finish hr =>
      exact ⟨Nat.sub_le_sub_right ih.1 1, le_trans (Nat.sub_le _ _) ih.2⟩

/-- Claim C8: for every target-list size and every positive capacity, any
state reachable through the gate's steps — a slot is acquired before a
Workflow starts and released only when that Workflow completes — has at
most `maxParallel` concurrently running Workflows. -/
theorem c8_gate_bound (cap n : Nat) (s : GateState) (hpos : 0 < cap)
    (h : Relation.ReflTransGen (GateStep cap) (gateInit n) s) :
    s.running ≤ cap :=
  le_trans (gateInv cap n s h).1 (gateInv cap n s h).2

/-- Witness for C8: with capacity 1 and two targets, the state after one
dispatch runs one Workflow, within the bound. -/
theorem c8_gate_bound_witness :
    0 < 1 ∧ (⟨1, 1, 1⟩ : GateState).running ≤ 1 :=
  ⟨by decide,
   c8_gate_bound 1 2 ⟨1, 1, 1⟩ (by decide)
     (Relation.ReflTransGen.single
       (GateStep.dispatch (gateInit 2) (by decide) (by decide)))⟩

/-- Claim C6: with a provider base URL configured, the clone source is the
base (trailing separators trimmed) joined to the repository name by
exactly one `/` and suffixed `.git` — on the spec's example,
`https://example.org/org` and `teamrepo` give
`https://example.org/org/teamrepo.git`; without a provider base URL (the
`part_000` variant) the target line is passed verbatim to `git clone` and
the local directory is the line's final path segment with a trailing
`.git` stripped. -/
theorem c6_clone_source (base name url : String)
    (hn : name.toList.head? ≠ some '/') :
    fullURL "https://example.org/org" "teamrepo"
      = "https://example.org/org/teamrepo.git" ∧
    ((fullURL base name).toList =
      (trimRightSlash base).toList ++ '/' :: (name.toList ++ ".git".toList) ∧
      (trimRightSlash base).toList.getLast? ≠ some '/' ∧
      (name.toList ++ ".git".toList).head? ≠ some '/') ∧
    v2TargetDir "https://host/org/repo.git" = "repo" ∧
    (∀ (env : CheckoutEnv) (e : StatErr) (d1 : String),
      env.dirStat = Except.error e →
      execsOf (checkoutRepoV2 env url "" d1 false).snd =
        [⟨"git", ["clone", url, d1]⟩]) := by
  refine ⟨by decide, ⟨?_, ?_, ?_⟩, by decide, ?_⟩
  · simp [fullURL]
  · have h2 : (trimRightSlash base).toList.getLast? =
        (base.toList.reverse.dropWhile (fun c => c == '/')).head? := by
      simp [trimRightSlash]
    rw [h2]
    intro hc
    have := head_dropWhile_not (fun c => c == '/') base.toList.reverse '/' hc
    simp at this
  · rcases hnl : name.toList with _ | ⟨a, l⟩
    · decide
    · rw [hnl] at hn
      simp only [List.head?_cons, ne_eq, Option.some.injEq] at hn
      simp [hn]
  · intro env e d1 h
    rcases hr : env.cmdResult ⟨"git", ["clone", url, d1]⟩ with e2 | u
    · simp [checkoutRepoV2, h, run, hr, execsOf, cloneArgs]
    · simp [checkoutRepoV2, h, run, hr, execsOf, cloneArgs]

/-- Witness for C6: the spec's example URL composition, and a verbatim
clone by the second variant. -/
theorem c6_clone_source_witness :
    fullURL "https://example.org/org" "teamrepo"
      = "https://example.org/org/teamrepo.git" ∧
    execsOf (checkoutRepoV2 coPermErr "https://h/r.git" "" "r" false).snd =
      [⟨"git", ["clone", "https://h/r.git", "r"]⟩] :=
  ⟨(c6_clone_source "https://example.org/org" "teamrepo" "https://h/r.git"
      (by decide)).1,
   (c6_clone_source "https://example.org/org" "teamrepo" "https://h/r.git"
      (by decide)).2.2.2 coPermErr StatErr.permission "r" (by rfl)⟩
